import Mathlib

/-
Verification of the Book Library application (React/TS client plus a
loan-and-reservation lifecycle engine) against its design document.

Part 1 embeds the client code shipped in the repository:
  - the role hierarchy check `hasRole` (AuthContext),
  - the loan types and `isOverdue` (MyLoans page),
  - the book card borrow-button gating (LibraryPage).
Part 2 models the Loan & Reservation Lifecycle Engine. The engine itself
is a backend service whose implementation is not part of the shipped
sources, so its operations are reconstructed from the design document
and are marked `Modelled from the spec:` in their doc comments.
-/

namespace Client

/-- UserRole enumeration from the client type definitions:
ADMIN, LIBRARIAN, MEMBER, GUEST. -/
inductive UserRole where
  | admin
  | librarian
  | member
  | guest
deriving DecidableEq, Repr

/-- roleHierarchy table from `hasRole` in AuthContext:
Admin 4, Librarian 3, Member 2, Guest 1. -/
def roleHierarchy : UserRole → Nat
  | .admin => 4
  | .librarian => 3
  | .member => 2
  | .guest => 1

/-- User record; only the field read by `hasRole` is carried. -/
structure User where
  role : UserRole
deriving DecidableEq, Repr

/-- hasRole from AuthContext: false when no user is logged in, otherwise
compares the rank of the logged-in role against the rank of the queried
role. -/
def hasRole (stateUser : Option User) (role : UserRole) : Bool :=
  match stateUser with
  | none => false
  | some u => decide (roleHierarchy u.role ≥ roleHierarchy role)

/-- LoanStatus enumeration from the client type definitions:
ACTIVE, RETURNED, OVERDUE, RESERVED. -/
inductive LoanStatus where
  | active
  | returned
  | overdue
  | reserved
deriving DecidableEq, Repr

/-- Loan record from the client type definitions; timestamps are modelled
as natural numbers, and only the fields read by the embedded functions
are carried. -/
structure Loan where
  id : Nat
  user_id : Nat
  book_id : Nat
  due_date : Nat
  return_date : Option Nat
  status : LoanStatus
deriving DecidableEq, Repr

/-- isOverdue from the MyLoans page: a RETURNED loan is never overdue;
otherwise the loan is overdue when its stored status is OVERDUE or its
due date lies strictly before now. -/
def isOverdue (loan : Loan) (now : Nat) : Bool :=
  if loan.status = LoanStatus.returned then false
  else loan.status = LoanStatus.overdue || decide (loan.due_date < now)

/-- Book record from the client type definitions; only the copy-count
fields relevant to availability are carried, as integers as sent by the
backend. -/
structure Book where
  id : Nat
  total_copies : Int
  available_copies : Int
deriving DecidableEq, Repr

/-- borrow-button gating from the LibraryPage book card: the button is
disabled when the available-copies figure is at most zero or a borrow
request is already pending. -/
def borrowButtonDisabled (book : Book) (isPending : Bool) : Bool :=
  decide (book.available_copies ≤ 0) || isPending

end Client

namespace Engine

/-- Modelled from the spec: policy configuration supplied to the engine
(loan period length, max renewals, per-day fine rate, reservation expiry
duration). Timestamps are naturals in raw time units and `dayLength` is
the number of raw units in one whole day. The engine implementation is
not among the shipped sources, so it is reconstructed from the design
document. -/
structure Config where
  loanPeriod : Nat
  maxRenewals : Nat
  finePerDay : Nat
  dayLength : Nat
  reservationTtl : Nat
deriving DecidableEq, Repr

/-- Modelled from the spec: loan state space
{Active, Returned, Overdue, Lost, Damaged}. -/
inductive LoanState where
  | active
  | returned
  | overdue
  | lost
  | damaged
deriving DecidableEq, Repr

/-- Returned, Lost and Damaged are the terminal loan states. -/
def LoanState.isTerminal : LoanState → Bool
  | .returned => true
  | .lost => true
  | .damaged => true
  | _ => false

/-- Active and Overdue are the open loan states, the ones that hold a
copy. -/
def LoanState.isOpen : LoanState → Bool
  | .active => true
  | .overdue => true
  | _ => false

/-- Modelled from the spec: a Loan record (title identifier is implicit
because the engine is embedded one title at a time; the accrued fine is
derived from the stored timestamps by `fineAt`, not stored). -/
structure Loan where
  id : Nat
  holderId : Nat
  state : LoanState
  issuedAt : Nat
  dueAt : Nat
  returnedAt : Option Nat
  renewals : Nat
deriving DecidableEq, Repr

/-- Modelled from the spec: reservation state space
{Pending, Fulfilled, Expired, Cancelled}. -/
inductive ResState where
  | pending
  | fulfilled
  | expired
  | cancelled
deriving DecidableEq, Repr

/-- Modelled from the spec: a Reservation record; the queue position is
recomputed from the Pending set, never stored. -/
structure Reservation where
  id : Nat
  requesterId : Nat
  state : ResState
  createdAt : Nat
  expiresAt : Nat
deriving DecidableEq, Repr

/-- Modelled from the spec: the per-title state owned by the Lifecycle
Coordinator. Operations on distinct titles are independent under the
per-title exclusivity boundary, so the engine is embedded one title at
a time; `queue` is kept in creation order. -/
structure TitleState where
  totalCopies : Nat
  loans : List Loan
  queue : List Reservation
  nextLoanId : Nat
  nextResId : Nat
deriving DecidableEq, Repr

/-- Count of loans in an open state {Active, Overdue} for the title. -/
def openCount (s : TitleState) : Nat :=
  s.loans.countP (fun l => l.state.isOpen)

/-- Modelled from the spec: derived availability,
total copies minus open loans (truncated at zero). -/
def availableCopies (s : TitleState) : Nat :=
  s.totalCopies - openCount s

/-- Availability as an integer, to express that the derived count never
goes negative. -/
def availInt (s : TitleState) : Int :=
  (s.totalCopies : Int) - (openCount s : Int)

/-- Modelled from the spec: opportunistic expiry sweep; every Pending
reservation whose expiry timestamp has passed becomes Expired. Run on
every queue read so that correctness does not depend on a scheduler. -/
def expireStale (now : Nat) (s : TitleState) : TitleState :=
  { s with queue := s.queue.map (fun r =>
      if r.state = ResState.pending ∧ r.expiresAt < now
      then { r with state := ResState.expired } else r) }

/-- Pending reservations for the title, in creation order. -/
def pendingList (s : TitleState) : List Reservation :=
  s.queue.filter (fun r => r.state = ResState.pending)

/-- Modelled from the spec: the queue position of a reservation is its
one-based index in the Pending set, recomputed on demand and therefore
always dense. -/
def queuePosition (s : TitleState) (resId : Nat) : Option Nat :=
  match (pendingList s).findIdx? (fun r => r.id = resId) with
  | some i => some (i + 1)
  | none => none

/-- Outcome of a borrow request. -/
inductive BorrowOutcome where
  | granted (loanId : Nat)
  | capacityExhausted
  | queueJumpRejected
deriving DecidableEq, Repr

/-- Does the outcome report a granted loan. -/
def BorrowOutcome.isGranted : BorrowOutcome → Bool
  | .granted _ => true
  | _ => false

/-- Modelled from the spec: `borrow(titleId, userId, now)`. If an open
queue exists the request is rejected (no queue jumping); otherwise
capacity is atomically tested and, when free, an Active loan is created
with due date one loan period from now; with no capacity the request is
rejected as CapacityExhausted. -/
def borrow (cfg : Config) (userId now : Nat) (s : TitleState) :
    BorrowOutcome × TitleState :=
  let s1 := expireStale now s
  if pendingList s1 ≠ [] then
    (BorrowOutcome.queueJumpRejected, s1)
  else if 0 < availableCopies s1 then
    let l : Loan :=
      { id := s1.nextLoanId, holderId := userId, state := LoanState.active,
        issuedAt := now, dueAt := now + cfg.loanPeriod,
        returnedAt := none, renewals := 0 }
    (BorrowOutcome.granted l.id,
      { s1 with loans := l :: s1.loans, nextLoanId := s1.nextLoanId + 1 })
  else
    (BorrowOutcome.capacityExhausted, s1)

/-- Replace the loan carrying the given id. -/
def replaceLoan (loans : List Loan) (loanId : Nat) (nl : Loan) : List Loan :=
  loans.map (fun x => if x.id = loanId then nl else x)

/-- Modelled from the spec: `returnLoan(loanId, now)`. A loan already in
a terminal state is a no-op that reports the stored record (idempotent
return). An open loan is closed with return timestamp now; the freed
capacity is then offered to the head of the Pending queue (after the
expiry sweep): if one exists it is Fulfilled and a new Active loan is
created for its requester inside the same operation, so the copy is
never reported as generally available. -/
def returnLoan (cfg : Config) (loanId now : Nat) (s : TitleState) :
    Except String Loan × TitleState :=
  match s.loans.find? (fun l => l.id = loanId) with
  | none => (Except.error "Loan not found", s)
  | some l =>
    if l.state.isTerminal then
      (Except.ok l, s)
    else
      let closed : Loan :=
        { l with state := LoanState.returned, returnedAt := some now }
      let s1 := expireStale now { s with loans := replaceLoan s.loans loanId closed }
      match pendingList s1 with
      | [] => (Except.ok closed, s1)
      | r :: _ =>
        let nl : Loan :=
          { id := s1.nextLoanId, holderId := r.requesterId,
            state := LoanState.active, issuedAt := now,
            dueAt := now + cfg.loanPeriod, returnedAt := none, renewals := 0 }
        (Except.ok closed,
          { s1 with
              loans := nl :: s1.loans,
              queue := s1.queue.map (fun x =>
                if x.id = r.id then { x with state := ResState.fulfilled } else x),
              nextLoanId := s1.nextLoanId + 1 })

/-- Reason codes for a denied renewal. -/
inductive RenewDenyReason where
  | limitReached
  | notActive
  | reservedByAnother
  | notFound
deriving DecidableEq, Repr

/-- Outcome of a renew request. -/
inductive RenewOutcome where
  | renewed (loan : Loan)
  | denied (reason : RenewDenyReason)
deriving DecidableEq, Repr

/-- Modelled from the spec: `renew(loanId, now)`; permitted only when
the stored state is Active (not Overdue), the renewal count is below
the configured maximum, and the Pending queue for the title is empty.
On success the due date becomes one loan period from now and the
renewal count grows by one; otherwise a specific reason is reported. -/
def renew (cfg : Config) (loanId now : Nat) (s : TitleState) :
    RenewOutcome × TitleState :=
  let s1 := expireStale now s
  match s1.loans.find? (fun l => l.id = loanId) with
  | none => (RenewOutcome.denied RenewDenyReason.notFound, s1)
  | some l =>
    if l.state ≠ LoanState.active then
      (RenewOutcome.denied RenewDenyReason.notActive, s1)
    else if ¬ l.renewals < cfg.maxRenewals then
      (RenewOutcome.denied RenewDenyReason.limitReached, s1)
    else if pendingList s1 ≠ [] then
      (RenewOutcome.denied RenewDenyReason.reservedByAnother, s1)
    else
      let l2 : Loan :=
        { l with dueAt := now + cfg.loanPeriod, renewals := l.renewals + 1 }
      (RenewOutcome.renewed l2, { s1 with loans := replaceLoan s1.loans loanId l2 })

/-- Modelled from the spec: the lazy overdue sweep
`evaluateOverdue(loanId, now)`; an Active loan whose due timestamp has
passed becomes Overdue, every other loan is untouched. -/
def evaluateOverdue (loanId now : Nat) (s : TitleState) : TitleState :=
  { s with loans := s.loans.map (fun l =>
      if l.id = loanId ∧ l.state = LoanState.active ∧ l.dueAt < now
      then { l with state := LoanState.overdue } else l) }

/-- Modelled from the spec: the pure overdue classification; a loan is
overdue exactly when it is not terminal and now is past its due
timestamp. -/
def overdueNow (l : Loan) (now : Nat) : Bool :=
  !l.state.isTerminal && decide (l.dueAt < now)

/-- Modelled from the spec: whole days late, floor of the span between
the due timestamp and the earlier of now and the return timestamp;
truncated natural subtraction realizes the max with zero. -/
def daysLate (cfg : Config) (l : Loan) (now : Nat) : Nat :=
  (min now (l.returnedAt.getD now) - l.dueAt) / cfg.dayLength

/-- Modelled from the spec: accrued fine, days late times the per-day
rate, recomputed from stored timestamps at every read. -/
def fineAt (cfg : Config) (l : Loan) (now : Nat) : Nat :=
  daysLate cfg l now * cfg.finePerDay

/-- Fine formula exactly as the design document words it, over the
integers: max(0, daysLate) times the per-day rate, with daysLate the
floor of the day span; used to check that `fineAt` refines it. -/
def specFine (cfg : Config) (l : Loan) (now : Nat) : Int :=
  max 0 (Int.fdiv (((min now (l.returnedAt.getD now) : Nat) : Int) - (l.dueAt : Int))
    (cfg.dayLength : Int)) * (cfg.finePerDay : Int)

/-- Outcome of a reservation request. -/
inductive ReserveOutcome where
  | enqueued (resId : Nat)
  | duplicateReservation
  | copiesAvailable
deriving DecidableEq, Repr

/-- Modelled from the spec: `reserve(titleId, userId, now)`; accepted
only when no copy is available and the requester holds neither an open
loan nor a Pending reservation on the title; the new reservation joins
the tail of the queue. -/
def reserve (cfg : Config) (userId now : Nat) (s : TitleState) :
    ReserveOutcome × TitleState :=
  let s1 := expireStale now s
  if availableCopies s1 ≠ 0 then
    (ReserveOutcome.copiesAvailable, s1)
  else if s1.loans.any (fun l => l.holderId = userId && l.state.isOpen) ||
      (pendingList s1).any (fun r => r.requesterId = userId) then
    (ReserveOutcome.duplicateReservation, s1)
  else
    let r : Reservation :=
      { id := s1.nextResId, requesterId := userId,
        state := ResState.pending, createdAt := now,
        expiresAt := now + cfg.reservationTtl }
    (ReserveOutcome.enqueued r.id,
      { s1 with queue := s1.queue ++ [r], nextResId := s1.nextResId + 1 })

/-- Modelled from the spec: `cancelReservation(reservationId)`;
a Pending reservation becomes Cancelled, every other reservation is
untouched; positions of later Pending reservations close up because
positions are recomputed from the Pending set. -/
def cancelReservation (resId : Nat) (s : TitleState) : TitleState :=
  { s with queue := s.queue.map (fun r =>
      if r.id = resId ∧ r.state = ResState.pending
      then { r with state := ResState.cancelled } else r) }

/-- Sequential processing of a batch of borrow requests under the
per-title serializability boundary; any concurrent execution is
equivalent to such a serial order. -/
def processBorrows (cfg : Config) (now : Nat) (s : TitleState) :
    List Nat → List BorrowOutcome × TitleState
  | [] => ([], s)
  | u :: us =>
    let p1 := borrow cfg u now s
    let p2 := processBorrows cfg now p1.2 us
    (p1.1 :: p2.1, p2.2)

/-- Count of loans in state Active for the title. -/
def activeCount (s : TitleState) : Nat :=
  s.loans.countP (fun l => l.state = LoanState.active)

end Engine

namespace Engine

theorem expireStale_loans (now : Nat) (s : TitleState) :
    (expireStale now s).loans = s.loans := rfl

theorem expireStale_totalCopies (now : Nat) (s : TitleState) :
    (expireStale now s).totalCopies = s.totalCopies := rfl

theorem openCount_expireStale (now : Nat) (s : TitleState) :
    openCount (expireStale now s) = openCount s := rfl

theorem availableCopies_expireStale (now : Nat) (s : TitleState) :
    availableCopies (expireStale now s) = availableCopies s := rfl

theorem expireStale_of_no_pending (now : Nat) (s : TitleState)
    (h : pendingList s = []) : expireStale now s = s := by
  have h' : ∀ r ∈ s.queue, ¬ r.state = ResState.pending := by
    intro r hr
    have := List.filter_eq_nil_iff.mp h r hr
    simpa using this
  show ({ s with queue := _ } : TitleState) = s
  have : s.queue.map (fun r =>
      if r.state = ResState.pending ∧ r.expiresAt < now
      then { r with state := ResState.expired } else r) = s.queue := by
    rw [List.map_congr_left (g := id) ?_, List.map_id]
    intro r hr
    simp [h' r hr]
  simp [this]

theorem mem_replaceLoan_of_ne {loans : List Loan} {lid : Nat} {nl l : Loan}
    (hl : l ∈ loans) (hne : ¬ l.id = lid) : l ∈ replaceLoan loans lid nl :=
  List.mem_map.mpr ⟨l, hl, by simp [hne]⟩

theorem replaceLoan_preserves_ids {loans : List Loan} {lid : Nat} {nl l : Loan}
    (hl : l ∈ loans) (hnl : nl.id = lid) :
    ∃ l2 ∈ replaceLoan loans lid nl, l2.id = l.id := by
  by_cases h : l.id = lid
  · exact ⟨nl, List.mem_map.mpr ⟨l, hl, by simp [h]⟩, by rw [hnl, h]⟩
  · exact ⟨l, mem_replaceLoan_of_ne hl h, rfl⟩

theorem find?_replaceLoan (loans : List Loan) (lid : Nat) (nl l0 : Loan)
    (hfind : loans.find? (fun l => l.id = lid) = some l0) (hnl : nl.id = lid) :
    (replaceLoan loans lid nl).find? (fun l => l.id = lid) = some nl := by
  induction loans with
  | nil => simp at hfind
  | cons a as ih =>
    by_cases ha : a.id = lid
    · simp only [replaceLoan, List.map_cons, if_pos ha]
      exact List.find?_cons_of_pos _ (by simpa using hnl)
    · rw [List.find?_cons_of_neg _ (by simpa using ha)] at hfind
      simp only [replaceLoan, List.map_cons, if_neg ha]
      rw [List.find?_cons_of_neg _ (by simpa using ha)]
      exact ih hfind

theorem countP_replaceLoan (p : Loan → Bool) (loans : List Loan) (lid : Nat)
    (nl l0 : Loan) (hnd : (loans.map Loan.id).Nodup)
    (hfind : loans.find? (fun l => l.id = lid) = some l0) :
    (replaceLoan loans lid nl).countP p
      = loans.countP p - (if p l0 then 1 else 0) + (if p nl then 1 else 0) := by
  induction loans with
  | nil => simp at hfind
  | cons a as ih =>
    rw [List.map_cons, List.nodup_cons] at hnd
    by_cases ha : a.id = lid
    · rw [List.find?_cons_of_pos _ (by simpa using ha)] at hfind
      have hal : a = l0 := by injection hfind
      subst hal
      have hnotin : ∀ x ∈ as, ¬ x.id = lid := by
        intro x hx hxid
        exact hnd.1 (by rw [ha, ← hxid]; exact List.mem_map_of_mem Loan.id hx)
      have hrepl : replaceLoan as lid nl = as := by
        rw [replaceLoan, List.map_congr_left (g := id) ?_, List.map_id]
        intro x hx
        simp [hnotin x hx]
      simp only [replaceLoan, List.map_cons, if_pos ha]
      rw [show List.map (fun x => if x.id = lid then nl else x) as
            = as from hrepl]
      rw [List.countP_cons, List.countP_cons]
      by_cases hpa : p a <;> by_cases hpn : p nl <;> simp [hpa, hpn]
    · rw [List.find?_cons_of_neg _ (by simpa using ha)] at hfind
      have hmem : l0 ∈ as := List.mem_of_find?_eq_some hfind
      have hcnt : (if p l0 = true then 1 else 0) ≤ List.countP p as := by
        by_cases hpl : p l0
        · simpa [hpl] using List.countP_pos_iff.mpr ⟨l0, hmem, hpl⟩
        · simp [hpl]
      simp only [replaceLoan, List.map_cons, if_neg ha]
      rw [List.countP_cons]
      rw [show List.countP p (List.map (fun x => if x.id = lid then nl else x) as)
            = List.countP p (replaceLoan as lid nl) from rfl]
      rw [ih hnd.2 hfind, List.countP_cons]
      by_cases hpa : p a <;> by_cases hpn : p nl <;> by_cases hpl : p l0 <;>
        simp only [hpa, hpn, hpl, if_true, if_false, ite_true, ite_false] at hcnt ⊢ <;>
        omega

theorem isTerminal_false_of_isOpen {st : LoanState} (h : st.isOpen = true) :
    st.isTerminal = false := by
  cases st <;> simp_all [LoanState.isOpen, LoanState.isTerminal]

end Engine

/-- Claim C10: client role checking is hierarchical and monotone.
`hasRole r` is true exactly when a user is logged in and the rank of
their role under Admin 4, Librarian 3, Member 2, Guest 1 is at least
the rank of r; for ranks r1 at most r2, `hasRole r2` implies
`hasRole r1`; and with nobody logged in `hasRole` is always false. -/
theorem hasRole_hierarchical_monotone :
    (∀ (user : Option Client.User) (r : Client.UserRole),
        Client.hasRole user r = true ↔
          ∃ u, user = some u ∧
            Client.roleHierarchy r ≤ Client.roleHierarchy u.role) ∧
    (∀ (user : Option Client.User) (r1 r2 : Client.UserRole),
        Client.roleHierarchy r1 ≤ Client.roleHierarchy r2 →
        Client.hasRole user r2 = true → Client.hasRole user r1 = true) ∧
    (∀ r, Client.hasRole none r = false) ∧
    Client.roleHierarchy Client.UserRole.admin = 4 ∧
    Client.roleHierarchy Client.UserRole.librarian = 3 ∧
    Client.roleHierarchy Client.UserRole.member = 2 ∧
    Client.roleHierarchy Client.UserRole.guest = 1 := by
  refine ⟨?_, ?_, ?_, rfl, rfl, rfl, rfl⟩
  · intro user r
    cases user with
    | none => simp [Client.hasRole]
    | some u => simp [Client.hasRole, ge_iff_le]
  · intro user r1 r2 h12 h2
    cases user with
    | none => simp [Client.hasRole] at h2
    | some u =>
      simp only [Client.hasRole, ge_iff_le, decide_eq_true_eq] at h2 ⊢
      exact le_trans h12 h2
  · intro r
    rfl

/-- Witness for C10 at a concrete input: a logged-in Librarian passes
the Member check. -/
theorem hasRole_hierarchical_monotone_witness :
    Client.hasRole (some ⟨Client.UserRole.librarian⟩) Client.UserRole.member = true :=
  hasRole_hierarchical_monotone.2.1 (some ⟨Client.UserRole.librarian⟩)
    Client.UserRole.member Client.UserRole.librarian (by decide) (by decide)

/-- Claim C8: whether a loan is overdue is a pure function of its
stored fields and now, needing no background scheduler: the engine
classification holds exactly when the loan is not terminal and now is
past its due timestamp, the stored-state sweep changes exactly the
Active loans that this pure classification marks, and the client
`isOverdue` is the stated test (not Returned, and either status
Overdue or due date before now), which agrees with the pure
classification whenever a stored Overdue status implies a passed due
date. -/
theorem overdue_lazy_pure_classification :
    (∀ (l : Engine.Loan) (now : Nat),
        Engine.overdueNow l now = true ↔
          l.state.isTerminal = false ∧ l.dueAt < now) ∧
    (∀ (loanId now : Nat) (s : Engine.TitleState),
        Engine.evaluateOverdue loanId now s
          = { s with loans := s.loans.map (fun l =>
              if l.id = loanId ∧ l.state = Engine.LoanState.active ∧
                  Engine.overdueNow l now = true
              then { l with state := Engine.LoanState.overdue } else l) }) ∧
    (∀ (l : Client.Loan) (now : Nat),
        Client.isOverdue l now =
          (!decide (l.status = Client.LoanStatus.returned) &&
            (decide (l.status = Client.LoanStatus.overdue) || decide (l.due_date < now)))) ∧
    (∀ (l : Client.Loan) (now : Nat),
        (l.status = Client.LoanStatus.overdue → l.due_date < now) →
        (Client.isOverdue l now = true ↔
          ¬ l.status = Client.LoanStatus.returned ∧ l.due_date < now)) := by
  refine ⟨?_, ?_, ?_, ?_⟩
  · intro l now
    cases h : l.state <;>
      simp [Engine.overdueNow, Engine.LoanState.isTerminal, h]
  · intro loanId now s
    unfold Engine.evaluateOverdue
    congr 1
    apply List.map_congr_left
    intro l _
    apply if_congr ?_ rfl rfl
    constructor
    · rintro ⟨h1, h2, h3⟩
      exact ⟨h1, h2, by simp [Engine.overdueNow, h2, Engine.LoanState.isTerminal, h3]⟩
    · rintro ⟨h1, h2, h3⟩
      refine ⟨h1, h2, ?_⟩
      simpa [Engine.overdueNow, h2, Engine.LoanState.isTerminal] using h3
  · intro l now
    unfold Client.isOverdue
    by_cases h : l.status = Client.LoanStatus.returned <;> simp [h]
  · intro l now hcons
    unfold Client.isOverdue
    by_cases h : l.status = Client.LoanStatus.returned
    · simp [h]
    · by_cases h2 : l.status = Client.LoanStatus.overdue
      · simp [h, h2, hcons h2]
      · simp [h, h2]

/-- Witness for C8 at a concrete input: a loan whose stored status is
Overdue with a passed due date satisfies both the client test and the
pure classification. -/
theorem overdue_lazy_pure_classification_witness :
    Client.isOverdue ⟨1, 2, 3, 10, none, Client.LoanStatus.overdue⟩ 12 = true ↔
      ¬ (Client.LoanStatus.overdue = Client.LoanStatus.returned) ∧ (10 : Nat) < 12 :=
  overdue_lazy_pure_classification.2.2.2
    ⟨1, 2, 3, 10, none, Client.LoanStatus.overdue⟩ 12 (by decide)

/-- Claim C9: every engine loan state is one of exactly Active,
Returned, Overdue, Lost, Damaged; loans are never deleted and a loan
in a terminal state is never changed again by borrow, return, renew or
the overdue sweep; the client LoanStatus enumeration instead has
exactly the values Active, Returned, Overdue, Reserved, with no Lost
or Damaged value. -/
theorem loan_states_terminal_final :
    (∀ st : Engine.LoanState,
        st = Engine.LoanState.active ∨ st = Engine.LoanState.returned ∨
        st = Engine.LoanState.overdue ∨ st = Engine.LoanState.lost ∨
        st = Engine.LoanState.damaged) ∧
    (∀ (cfg : Engine.Config) (uid now : Nat) (s : Engine.TitleState) (l : Engine.Loan),
        l ∈ s.loans → l.state.isTerminal = true →
        l ∈ ((Engine.borrow cfg uid now s).2).loans) ∧
    (∀ (cfg : Engine.Config) (lid now : Nat) (s : Engine.TitleState) (l : Engine.Loan),
        (s.loans.map Engine.Loan.id).Nodup → l ∈ s.loans → l.state.isTerminal = true →
        l ∈ ((Engine.returnLoan cfg lid now s).2).loans) ∧
    (∀ (cfg : Engine.Config) (lid now : Nat) (s : Engine.TitleState) (l : Engine.Loan),
        (s.loans.map Engine.Loan.id).Nodup → l ∈ s.loans → l.state.isTerminal = true →
        l ∈ ((Engine.renew cfg lid now s).2).loans) ∧
    (∀ (lid now : Nat) (s : Engine.TitleState) (l : Engine.Loan),
        l ∈ s.loans → l.state.isTerminal = true →
        l ∈ (Engine.evaluateOverdue lid now s).loans) ∧
    (∀ (cfg : Engine.Config) (lid now : Nat) (s : Engine.TitleState) (l : Engine.Loan),
        l ∈ s.loans →
        ∃ l2 ∈ ((Engine.returnLoan cfg lid now s).2).loans, l2.id = l.id) ∧
    (∀ (cfg : Engine.Config) (lid now : Nat) (s : Engine.TitleState) (l : Engine.Loan),
        l ∈ s.loans →
        ∃ l2 ∈ ((Engine.renew cfg lid now s).2).loans, l2.id = l.id) ∧
    (∀ st : Client.LoanStatus,
        st = Client.LoanStatus.active ∨ st = Client.LoanStatus.returned ∨
        st = Client.LoanStatus.overdue ∨ st = Client.LoanStatus.reserved) := by
  refine ⟨?_, ?_, ?_, ?_, ?_, ?_, ?_, ?_⟩
  · intro st
    cases st <;> simp
  · intro cfg uid now s l hl _
    unfold Engine.borrow
    dsimp only
    split
    · exact hl
    · split
      · exact List.mem_cons_of_mem _ hl
      · exact hl
  · intro cfg lid now s l hnd hl hterm
    unfold Engine.returnLoan
    dsimp only
    cases hf : s.loans.find? (fun x => x.id = lid) with
    | none => exact hl
    | some l0 =>
      dsimp only
      by_cases ht0 : l0.state.isTerminal
      · rw [if_pos ht0]
        exact hl
      · have hne : ¬ l.id = lid := by
          intro hid
          have h0id : l0.id = lid := by simpa using List.find?_some hf
          have : l = l0 := List.inj_on_of_nodup_map hnd hl
            (List.mem_of_find?_eq_some hf) (by rw [hid, h0id])
          rw [this] at hterm
          exact ht0 hterm
        rw [if_neg ht0]
        split
        · exact Engine.mem_replaceLoan_of_ne hl hne
        · exact List.mem_cons_of_mem _ (Engine.mem_replaceLoan_of_ne hl hne)
  · intro cfg lid now s l hnd hl hterm
    unfold Engine.renew
    dsimp only
    cases hf : (Engine.expireStale now s).loans.find? (fun x => x.id = lid) with
    | none => exact hl
    | some l0 =>
      dsimp only
      split
      · exact hl
      next hact =>
        split
        · exact hl
        · split
          · exact hl
          · have hactive : l0.state = Engine.LoanState.active := not_not.mp hact
            have hne : ¬ l.id = lid := by
              intro hid
              have h0id : l0.id = lid := by simpa using List.find?_some hf
              have hl0 : l0 ∈ s.loans := List.mem_of_find?_eq_some hf
              have : l = l0 := List.inj_on_of_nodup_map hnd hl hl0 (by rw [hid, h0id])
              rw [this, hactive] at hterm
              simp [Engine.LoanState.isTerminal] at hterm
            exact Engine.mem_replaceLoan_of_ne hl hne
  · intro lid now s l hl hterm
    unfold Engine.evaluateOverdue
    refine List.mem_map.mpr ⟨l, hl, ?_⟩
    have : ¬ l.state = Engine.LoanState.active := by
      intro h
      rw [h] at hterm
      simp [Engine.LoanState.isTerminal] at hterm
    simp [this]
  · intro cfg lid now s l hl
    unfold Engine.returnLoan
    dsimp only
    cases hf : s.loans.find? (fun x => x.id = lid) with
    | none => exact ⟨l, hl, rfl⟩
    | some l0 =>
      dsimp only
      by_cases ht0 : l0.state.isTerminal
      · rw [if_pos ht0]
        exact ⟨l, hl, rfl⟩
      · have h0id : l0.id = lid := by simpa using List.find?_some hf
        rw [if_neg ht0]
        split
        · exact Engine.replaceLoan_preserves_ids hl h0id
        · obtain ⟨l2, hl2, hid2⟩ :=
            @Engine.replaceLoan_preserves_ids s.loans lid
              { l0 with state := Engine.LoanState.returned, returnedAt := some now } l hl h0id
          exact ⟨l2, List.mem_cons_of_mem _ hl2, hid2⟩
  · intro cfg lid now s l hl
    unfold Engine.renew
    dsimp only
    cases hf : (Engine.expireStale now s).loans.find? (fun x => x.id = lid) with
    | none => exact ⟨l, hl, rfl⟩
    | some l0 =>
      dsimp only
      split
      · exact ⟨l, hl, rfl⟩
      · split
        · exact ⟨l, hl, rfl⟩
        · split
          · exact ⟨l, hl, rfl⟩
          · have h0id : l0.id = lid := by simpa using List.find?_some hf
            exact Engine.replaceLoan_preserves_ids hl h0id
  · intro st
    cases st <;> simp

/-- Witness for C9 at a concrete input: a Returned loan survives a
borrow by another user untouched. -/
theorem loan_states_terminal_final_witness :
    (⟨0, 7, Engine.LoanState.returned, 0, 14, some 10, 0⟩ : Engine.Loan) ∈
      ((Engine.borrow ⟨14, 2, 5, 1, 7⟩ 9 20
        ⟨2, [⟨0, 7, Engine.LoanState.returned, 0, 14, some 10, 0⟩], [], 1, 0⟩).2).loans :=
  loan_states_terminal_final.2.1 ⟨14, 2, 5, 1, 7⟩ 9 20
    ⟨2, [⟨0, 7, Engine.LoanState.returned, 0, 14, some 10, 0⟩], [], 1, 0⟩
    ⟨0, 7, Engine.LoanState.returned, 0, 14, some 10, 0⟩ (by decide) (by decide)

/-- Claim C6: the accrued fine is max(0, daysLate) times the per-day
rate with daysLate the floor of the whole days between min(now, return
timestamp) and the due timestamp (the executable natural-number fine
refines the integer formula exactly as the design document words it);
for an unreturned overdue loan the fine is monotone in the evaluation
time, and after return it is frozen at the value computed at the
moment of return. -/
theorem fine_formula_monotone_frozen :
    (∀ (cfg : Engine.Config) (l : Engine.Loan) (now : Nat),
        0 < cfg.dayLength →
        ((Engine.fineAt cfg l now : Int) = Engine.specFine cfg l now)) ∧
    (∀ (cfg : Engine.Config) (l : Engine.Loan) (t1 t2 : Nat),
        l.returnedAt = none → l.dueAt < t1 → t1 < t2 →
        Engine.fineAt cfg l t1 ≤ Engine.fineAt cfg l t2) ∧
    (∀ (cfg : Engine.Config) (l : Engine.Loan) (r t : Nat),
        l.returnedAt = some r → r ≤ t →
        Engine.fineAt cfg l t = Engine.fineAt cfg l r) := by
  refine ⟨?_, ?_, ?_⟩
  · intro cfg l now hd
    unfold Engine.fineAt Engine.daysLate Engine.specFine
    rw [Int.fdiv_eq_ediv _ (Int.natCast_nonneg _)]
    rcases le_or_lt l.dueAt (min now (l.returnedAt.getD now)) with h | h
    · have hc : ((min now (l.returnedAt.getD now) - l.dueAt : Nat) : Int)
          = ((min now (l.returnedAt.getD now) : Nat) : Int) - (l.dueAt : Int) := by
        omega
      have hnn : (0 : Int) ≤ ((min now (l.returnedAt.getD now) : Nat) : Int) - (l.dueAt : Int) := by
        omega
      rw [max_eq_right (Int.ediv_nonneg hnn (Int.natCast_nonneg _)), ← hc]
      push_cast
      ring
    · have hz : (min now (l.returnedAt.getD now) - l.dueAt : Nat) = 0 := by omega
      have hneg : ((min now (l.returnedAt.getD now) : Nat) : Int) - (l.dueAt : Int) ≤ 0 := by
        omega
      have hdiv : (((min now (l.returnedAt.getD now) : Nat) : Int) - (l.dueAt : Int))
          / (cfg.dayLength : Int) ≤ 0 := by
        have := Int.ediv_le_ediv (c := (cfg.dayLength : Int))
          (by exact_mod_cast hd) hneg
        simpa using this
      rw [max_eq_left hdiv, hz]
      simp
  · intro cfg l t1 t2 hret _ h12
    unfold Engine.fineAt Engine.daysLate
    rw [hret]
    simp only [Option.getD_none, min_self]
    exact Nat.mul_le_mul_right _
      (Nat.div_le_div_right (Nat.sub_le_sub_right (le_of_lt h12) _))
  · intro cfg l r t hret hrt
    unfold Engine.fineAt Engine.daysLate
    rw [hret]
    simp only [Option.getD_some]
    rw [min_eq_right hrt, min_self]

/-- Witness for C6 at a concrete input: a loan due at 10, unreturned,
with one raw unit per day and rate 5; the integer formula agrees at
time 13, the fine grows from time 11 to time 13, and once returned at
13 the fine read at 20 equals the fine at the return moment. -/
theorem fine_formula_monotone_frozen_witness :
    ((Engine.fineAt ⟨14, 2, 5, 1, 7⟩ ⟨0, 7, Engine.LoanState.overdue, 0, 10, none, 0⟩ 13 : Int)
        = Engine.specFine ⟨14, 2, 5, 1, 7⟩ ⟨0, 7, Engine.LoanState.overdue, 0, 10, none, 0⟩ 13) ∧
    Engine.fineAt ⟨14, 2, 5, 1, 7⟩ ⟨0, 7, Engine.LoanState.overdue, 0, 10, none, 0⟩ 11
      ≤ Engine.fineAt ⟨14, 2, 5, 1, 7⟩ ⟨0, 7, Engine.LoanState.overdue, 0, 10, none, 0⟩ 13 ∧
    Engine.fineAt ⟨14, 2, 5, 1, 7⟩ ⟨0, 7, Engine.LoanState.returned, 0, 10, some 13, 0⟩ 20
      = Engine.fineAt ⟨14, 2, 5, 1, 7⟩ ⟨0, 7, Engine.LoanState.returned, 0, 10, some 13, 0⟩ 13 :=
  ⟨fine_formula_monotone_frozen.1 ⟨14, 2, 5, 1, 7⟩
      ⟨0, 7, Engine.LoanState.overdue, 0, 10, none, 0⟩ 13 (by decide),
    fine_formula_monotone_frozen.2.1 ⟨14, 2, 5, 1, 7⟩
      ⟨0, 7, Engine.LoanState.overdue, 0, 10, none, 0⟩ 11 13 rfl (by decide) (by decide),
    fine_formula_monotone_frozen.2.2 ⟨14, 2, 5, 1, 7⟩
      ⟨0, 7, Engine.LoanState.returned, 0, 10, some 13, 0⟩ 13 20 rfl (by decide)⟩

/-- Claim C5: a renewal succeeds exactly when the stored state is
Active (not Overdue), the renewal count is below the configured
maximum, and the Pending queue for the title is empty; on success the
due date becomes one loan period from now and the renewal count grows
by one, and each failure carries its specific reason; with max
renewals 2 a loan renews exactly twice and the third attempt is denied
with the limit-reached reason. -/
theorem renew_policy :
    (∀ (cfg : Engine.Config) (lid now : Nat) (s : Engine.TitleState) (l : Engine.Loan),
        s.loans.find? (fun x => x.id = lid) = some l →
        ((∃ l2, (Engine.renew cfg lid now s).1 = Engine.RenewOutcome.renewed l2) ↔
          (l.state = Engine.LoanState.active ∧ l.renewals < cfg.maxRenewals ∧
            Engine.pendingList (Engine.expireStale now s) = []))) ∧
    (∀ (cfg : Engine.Config) (lid now : Nat) (s : Engine.TitleState) (l : Engine.Loan),
        s.loans.find? (fun x => x.id = lid) = some l →
        l.state = Engine.LoanState.active → l.renewals < cfg.maxRenewals →
        Engine.pendingList (Engine.expireStale now s) = [] →
        (Engine.renew cfg lid now s).1 = Engine.RenewOutcome.renewed
          { l with dueAt := now + cfg.loanPeriod, renewals := l.renewals + 1 } ∧
        ((Engine.renew cfg lid now s).2).loans.find? (fun x => x.id = lid) =
          some { l with dueAt := now + cfg.loanPeriod, renewals := l.renewals + 1 }) ∧
    (∀ (cfg : Engine.Config) (lid now : Nat) (s : Engine.TitleState) (l : Engine.Loan),
        s.loans.find? (fun x => x.id = lid) = some l →
        ¬ l.state = Engine.LoanState.active →
        (Engine.renew cfg lid now s).1 =
          Engine.RenewOutcome.denied Engine.RenewDenyReason.notActive) ∧
    (∀ (cfg : Engine.Config) (lid now : Nat) (s : Engine.TitleState) (l : Engine.Loan),
        s.loans.find? (fun x => x.id = lid) = some l →
        l.state = Engine.LoanState.active → ¬ l.renewals < cfg.maxRenewals →
        (Engine.renew cfg lid now s).1 =
          Engine.RenewOutcome.denied Engine.RenewDenyReason.limitReached) ∧
    (∀ (cfg : Engine.Config) (lid now : Nat) (s : Engine.TitleState) (l : Engine.Loan),
        s.loans.find? (fun x => x.id = lid) = some l →
        l.state = Engine.LoanState.active → l.renewals < cfg.maxRenewals →
        ¬ Engine.pendingList (Engine.expireStale now s) = [] →
        (Engine.renew cfg lid now s).1 =
          Engine.RenewOutcome.denied Engine.RenewDenyReason.reservedByAnother) ∧
    ((Engine.renew ⟨14, 2, 5, 1, 7⟩ 0 105
        ⟨1, [⟨0, 7, Engine.LoanState.active, 100, 114, none, 0⟩], [], 1, 1⟩).1
      = Engine.RenewOutcome.renewed ⟨0, 7, Engine.LoanState.active, 100, 119, none, 1⟩ ∧
     (Engine.renew ⟨14, 2, 5, 1, 7⟩ 0 106
        (Engine.renew ⟨14, 2, 5, 1, 7⟩ 0 105
          ⟨1, [⟨0, 7, Engine.LoanState.active, 100, 114, none, 0⟩], [], 1, 1⟩).2).1
      = Engine.RenewOutcome.renewed ⟨0, 7, Engine.LoanState.active, 100, 120, none, 2⟩ ∧
     (Engine.renew ⟨14, 2, 5, 1, 7⟩ 0 107
        (Engine.renew ⟨14, 2, 5, 1, 7⟩ 0 106
          (Engine.renew ⟨14, 2, 5, 1, 7⟩ 0 105
            ⟨1, [⟨0, 7, Engine.LoanState.active, 100, 114, none, 0⟩], [], 1, 1⟩).2).2).1
      = Engine.RenewOutcome.denied Engine.RenewDenyReason.limitReached) := by
  refine ⟨?_, ?_, ?_, ?_, ?_, by decide, by decide, by decide⟩
  · intro cfg lid now s l hf
    unfold Engine.renew
    dsimp only
    rw [Engine.expireStale_loans, hf]
    dsimp only
    by_cases h1 : l.state = Engine.LoanState.active
    · by_cases h2 : l.renewals < cfg.maxRenewals
      · by_cases h3 : Engine.pendingList (Engine.expireStale now s) = []
        · rw [if_neg (by simp [h1]), if_neg (by simp [h2]), if_neg (by simp [h3])]
          simp [h1, h2, h3]
        · rw [if_neg (by simp [h1]), if_neg (by simp [h2]), if_pos (by simp [h3])]
          simp [h3]
      · rw [if_neg (by simp [h1]), if_pos h2]
        simp [h2]
    · rw [if_pos h1]
      simp [h1]
  · intro cfg lid now s l hf h1 h2 h3
    have hlid : l.id = lid := by simpa using List.find?_some hf
    unfold Engine.renew
    dsimp only
    rw [Engine.expireStale_loans, hf]
    dsimp only
    rw [if_neg (by simp [h1]), if_neg (by simp [h2]), if_neg (by simp [h3])]
    refine ⟨rfl, ?_⟩
    exact Engine.find?_replaceLoan _ _ _ _ hf (by simpa using hlid)
  · intro cfg lid now s l hf h1
    unfold Engine.renew
    dsimp only
    rw [Engine.expireStale_loans, hf]
    dsimp only
    rw [if_pos h1]
  · intro cfg lid now s l hf h1 h2
    unfold Engine.renew
    dsimp only
    rw [Engine.expireStale_loans, hf]
    dsimp only
    rw [if_neg (by simp [h1]), if_pos h2]
  · intro cfg lid now s l hf h1 h2 h3
    unfold Engine.renew
    dsimp only
    rw [Engine.expireStale_loans, hf]
    dsimp only
    rw [if_neg (by simp [h1]), if_neg (by simp [h2]), if_pos h3]

/-- Witness for C5 at a concrete input: an Active loan with no
renewals yet, an empty queue and max renewals 2 renews with its due
date pushed one period from now and its count at one. -/
theorem renew_policy_witness :
    (Engine.renew ⟨14, 2, 5, 1, 7⟩ 0 105
        ⟨1, [⟨0, 7, Engine.LoanState.active, 100, 114, none, 0⟩], [], 1, 1⟩).1
      = Engine.RenewOutcome.renewed ⟨0, 7, Engine.LoanState.active, 100, 119, none, 1⟩ :=
  (renew_policy.2.1 ⟨14, 2, 5, 1, 7⟩ 0 105
    ⟨1, [⟨0, 7, Engine.LoanState.active, 100, 114, none, 0⟩], [], 1, 1⟩
    ⟨0, 7, Engine.LoanState.active, 100, 114, none, 0⟩
    (by decide) rfl (by decide) (by decide)).1

/-- Claim C4: returnLoan is idempotent. Returning a loan already in
the Returned state is a no-op pair of the stored terminal record and
the unchanged state (so capacity is released at most once in total and
every loan field and the availability count stay put); a first return
of an open loan stores and reports the closed record, and a second
call then reports that same record while changing nothing. -/
theorem return_idempotent :
    (∀ (cfg : Engine.Config) (lid now : Nat) (s : Engine.TitleState) (l : Engine.Loan),
        s.loans.find? (fun x => x.id = lid) = some l →
        l.state = Engine.LoanState.returned →
        Engine.returnLoan cfg lid now s = (Except.ok l, s)) ∧
    (∀ (cfg : Engine.Config) (lid now : Nat) (s : Engine.TitleState) (l : Engine.Loan),
        s.loans.find? (fun x => x.id = lid) = some l →
        l.state.isOpen = true →
        (∀ x ∈ s.loans, x.id < s.nextLoanId) →
        (Engine.returnLoan cfg lid now s).1 =
          Except.ok { l with state := Engine.LoanState.returned, returnedAt := some now } ∧
        ((Engine.returnLoan cfg lid now s).2).loans.find? (fun x => x.id = lid) =
          some { l with state := Engine.LoanState.returned, returnedAt := some now }) ∧
    (∀ (cfg : Engine.Config) (lid now now2 : Nat) (s : Engine.TitleState) (l : Engine.Loan),
        s.loans.find? (fun x => x.id = lid) = some l →
        l.state.isOpen = true →
        (∀ x ∈ s.loans, x.id < s.nextLoanId) →
        Engine.returnLoan cfg lid now2 ((Engine.returnLoan cfg lid now s).2) =
          (Except.ok { l with state := Engine.LoanState.returned, returnedAt := some now },
            (Engine.returnLoan cfg lid now s).2)) := by
  have part1 : ∀ (cfg : Engine.Config) (lid now : Nat) (s : Engine.TitleState) (l : Engine.Loan),
      s.loans.find? (fun x => x.id = lid) = some l →
      l.state = Engine.LoanState.returned →
      Engine.returnLoan cfg lid now s = (Except.ok l, s) := by
    intro cfg lid now s l hf hret
    unfold Engine.returnLoan
    dsimp only
    rw [hf]
    dsimp only
    rw [if_pos (by rw [hret]; rfl)]
  have part2 : ∀ (cfg : Engine.Config) (lid now : Nat) (s : Engine.TitleState) (l : Engine.Loan),
      s.loans.find? (fun x => x.id = lid) = some l →
      l.state.isOpen = true →
      (∀ x ∈ s.loans, x.id < s.nextLoanId) →
      (Engine.returnLoan cfg lid now s).1 =
        Except.ok { l with state := Engine.LoanState.returned, returnedAt := some now } ∧
      ((Engine.returnLoan cfg lid now s).2).loans.find? (fun x => x.id = lid) =
        some { l with state := Engine.LoanState.returned, returnedAt := some now } := by
    intro cfg lid now s l hf hopen hfresh
    have hlid : l.id = lid := by simpa using List.find?_some hf
    have hterm : l.state.isTerminal = false := Engine.isTerminal_false_of_isOpen hopen
    unfold Engine.returnLoan
    dsimp only
    rw [hf]
    dsimp only
    rw [if_neg (by simp [hterm])]
    split
    · refine ⟨rfl, ?_⟩
      exact Engine.find?_replaceLoan _ _ _ _ hf (by simpa using hlid)
    · refine ⟨rfl, ?_⟩
      have hne : ¬ (s.nextLoanId = lid) := by
        have := hfresh l (List.mem_of_find?_eq_some hf)
        omega
      rw [List.find?_cons_of_neg _ (by simpa [Engine.expireStale] using hne)]
      exact Engine.find?_replaceLoan _ _ _ _ hf (by simpa using hlid)
  refine ⟨part1, part2, ?_⟩
  intro cfg lid now now2 s l hf hopen hfresh
  obtain ⟨_, hfind2⟩ := part2 cfg lid now s l hf hopen hfresh
  exact part1 cfg lid now2 _ _ hfind2 rfl

/-- Witness for C4 at a concrete input: returning an already-Returned
loan reports the stored record and leaves the state untouched. -/
theorem return_idempotent_witness :
    Engine.returnLoan ⟨14, 2, 5, 1, 7⟩ 0 120
        ⟨1, [⟨0, 7, Engine.LoanState.returned, 100, 114, some 111, 0⟩], [], 1, 1⟩
      = (Except.ok ⟨0, 7, Engine.LoanState.returned, 100, 114, some 111, 0⟩,
          ⟨1, [⟨0, 7, Engine.LoanState.returned, 100, 114, some 111, 0⟩], [], 1, 1⟩) :=
  return_idempotent.1 ⟨14, 2, 5, 1, 7⟩ 0 120
    ⟨1, [⟨0, 7, Engine.LoanState.returned, 100, 114, some 111, 0⟩], [], 1, 1⟩
    ⟨0, 7, Engine.LoanState.returned, 100, 114, some 111, 0⟩ (by decide) rfl

namespace Engine

theorem borrow_grant_facts (cfg : Config) (u now : Nat) (s : TitleState)
    (hq : pendingList s = []) (hcap : 0 < availableCopies s) :
    (borrow cfg u now s).1 = BorrowOutcome.granted s.nextLoanId ∧
    pendingList (borrow cfg u now s).2 = [] ∧
    openCount (borrow cfg u now s).2 = openCount s + 1 ∧
    activeCount (borrow cfg u now s).2 = activeCount s + 1 ∧
    availableCopies (borrow cfg u now s).2 = availableCopies s - 1 ∧
    (borrow cfg u now s).2.totalCopies = s.totalCopies := by
  unfold borrow
  dsimp only
  rw [expireStale_of_no_pending now s hq]
  rw [if_neg (by simp [hq]), if_pos hcap]
  refine ⟨rfl, hq, ?_, ?_, ?_, rfl⟩
  · simp [openCount, List.countP_cons, LoanState.isOpen]
  · simp [activeCount, List.countP_cons]
  · have hopen : openCount (⟨s.totalCopies,
        ⟨s.nextLoanId, u, LoanState.active, now, now + cfg.loanPeriod, none, 0⟩ :: s.loans,
        s.queue, s.nextLoanId + 1, s.nextResId⟩ : TitleState) = openCount s + 1 := by
      simp [openCount, List.countP_cons, LoanState.isOpen]
    show availableCopies (⟨s.totalCopies,
        ⟨s.nextLoanId, u, LoanState.active, now, now + cfg.loanPeriod, none, 0⟩ :: s.loans,
        s.queue, s.nextLoanId + 1, s.nextResId⟩ : TitleState) = availableCopies s - 1
    unfold availableCopies
    rw [hopen]
    unfold availableCopies at hcap
    dsimp only
    omega

theorem borrow_no_pending_exhausted (cfg : Config) (u now : Nat) (s : TitleState)
    (hq : pendingList s = []) (hcap : ¬ 0 < availableCopies s) :
    borrow cfg u now s = (BorrowOutcome.capacityExhausted, s) := by
  unfold borrow
  dsimp only
  rw [expireStale_of_no_pending now s hq]
  rw [if_neg (by simp [hq]), if_neg hcap]

theorem processBorrows_cons (cfg : Config) (now u : Nat) (us : List Nat)
    (s : TitleState) :
    processBorrows cfg now s (u :: us)
      = ((borrow cfg u now s).1 ::
          (processBorrows cfg now (borrow cfg u now s).2 us).1,
        (processBorrows cfg now (borrow cfg u now s).2 us).2) := rfl

theorem processBorrows_counts (cfg : Config) (now : Nat) (us : List Nat) :
    ∀ s : TitleState, pendingList s = [] →
      ((processBorrows cfg now s us).1.countP BorrowOutcome.isGranted
          = min us.length (availableCopies s)) ∧
      ((processBorrows cfg now s us).1.countP
          (fun o => o = BorrowOutcome.capacityExhausted)
          = us.length - min us.length (availableCopies s)) ∧
      openCount (processBorrows cfg now s us).2
          = openCount s + min us.length (availableCopies s) ∧
      activeCount (processBorrows cfg now s us).2
          = activeCount s + min us.length (availableCopies s) := by
  induction us with
  | nil =>
    intro s _
    simp [processBorrows]
  | cons u us ih =>
    intro s hq
    by_cases hcap : 0 < availableCopies s
    · obtain ⟨hb1, hb2, hb3, hb4, hb5, _⟩ := borrow_grant_facts cfg u now s hq hcap
      obtain ⟨ih1, ih2, ih3, ih4⟩ := ih _ hb2
      rw [processBorrows_cons]
      refine ⟨?_, ?_, ?_, ?_⟩
      · rw [List.countP_cons, ih1, hb5, hb1]
        have hg : BorrowOutcome.isGranted (BorrowOutcome.granted s.nextLoanId) = true := rfl
        rw [hg, if_pos rfl]
        simp only [List.length_cons]
        omega
      · rw [List.countP_cons, ih2, hb5, hb1]
        rw [if_neg (by simp)]
        simp only [List.length_cons]
        omega
      · rw [ih3, hb3, hb5]
        simp only [List.length_cons]
        omega
      · rw [ih4, hb4, hb5]
        simp only [List.length_cons]
        omega
    · have hb := borrow_no_pending_exhausted cfg u now s hq hcap
      obtain ⟨ih1, ih2, ih3, ih4⟩ := ih s hq
      have hz : availableCopies s = 0 := by omega
      rw [hz] at ih1 ih2 ih3 ih4
      simp only [Nat.min_zero, Nat.sub_zero, Nat.add_zero] at ih1 ih2 ih3 ih4
      rw [processBorrows_cons, hb]
      dsimp only
      refine ⟨?_, ?_, ?_, ?_⟩
      · rw [List.countP_cons, ih1]
        simp [BorrowOutcome.isGranted, hz]
      · rw [List.countP_cons, ih2]
        simp [hz]
      · rw [ih3]
        simp [hz]
      · rw [ih4]
        simp [hz]

end Engine

/-- Claim C1: with an empty reservation queue and n available copies,
processing k > n borrow requests for the title in any serial order
(the per-title exclusivity boundary makes every concurrent execution
equivalent to one) grants exactly n requests, turning exactly n loans
Active, and rejects the other k minus n with CapacityExhausted; in
particular never more than n loans become Active and never fewer when
copies were in fact free. -/
theorem borrow_race_exactly_n :
    ∀ (cfg : Engine.Config) (now : Nat) (s : Engine.TitleState) (us : List Nat) (n k : Nat),
      Engine.pendingList s = [] → Engine.availableCopies s = n → us.length = k → n < k →
      ((Engine.processBorrows cfg now s us).1.countP Engine.BorrowOutcome.isGranted = n ∧
       (Engine.processBorrows cfg now s us).1.countP
          (fun o => o = Engine.BorrowOutcome.capacityExhausted) = k - n ∧
       Engine.activeCount (Engine.processBorrows cfg now s us).2
          = Engine.activeCount s + n ∧
       Engine.openCount (Engine.processBorrows cfg now s us).2
          = Engine.openCount s + n) := by
  intro cfg now s us n k hq havail hlen hnk
  obtain ⟨h1, h2, h3, h4⟩ := Engine.processBorrows_counts cfg now us s hq
  have hmin : min us.length (Engine.availableCopies s) = n := by
    rw [havail, hlen]
    omega
  exact ⟨by rw [h1, hmin], by rw [h2, hmin, hlen], by rw [h4, hmin], by rw [h3, hmin]⟩

/-- Witness for C1 at a concrete input: two requests race for the one
free copy of a one-copy title with an empty queue; exactly one is
granted, one is rejected, and exactly one loan ends up Active. -/
theorem borrow_race_exactly_n_witness :
    (Engine.processBorrows ⟨14, 2, 5, 1, 7⟩ 100 ⟨1, [], [], 0, 0⟩ [7, 8]).1.countP
        Engine.BorrowOutcome.isGranted = 1 ∧
    (Engine.processBorrows ⟨14, 2, 5, 1, 7⟩ 100 ⟨1, [], [], 0, 0⟩ [7, 8]).1.countP
        (fun o => o = Engine.BorrowOutcome.capacityExhausted) = 2 - 1 ∧
    Engine.activeCount (Engine.processBorrows ⟨14, 2, 5, 1, 7⟩ 100 ⟨1, [], [], 0, 0⟩ [7, 8]).2
        = Engine.activeCount ⟨1, [], [], 0, 0⟩ + 1 ∧
    Engine.openCount (Engine.processBorrows ⟨14, 2, 5, 1, 7⟩ 100 ⟨1, [], [], 0, 0⟩ [7, 8]).2
        = Engine.openCount ⟨1, [], [], 0, 0⟩ + 1 :=
  borrow_race_exactly_n ⟨14, 2, 5, 1, 7⟩ 100 ⟨1, [], [], 0, 0⟩ [7, 8] 1 2
    rfl rfl rfl (by decide)

namespace Engine

theorem isOpen_of_isTerminal_false {st : LoanState} (h : st.isTerminal = false) :
    st.isOpen = true := by
  cases st <;> simp_all [LoanState.isOpen, LoanState.isTerminal]

theorem openCount_cons_active (L : List Loan) (l : Loan)
    (h : l.state = LoanState.active) :
    List.countP (fun x => x.state.isOpen) (l :: L)
      = List.countP (fun x => x.state.isOpen) L + 1 := by
  simp [List.countP_cons, h, LoanState.isOpen]

end Engine

/-- Claim C2: for every title the count of loans in an open state
(Active or Overdue) never exceeds the total copy count under borrow,
return, renew and the overdue sweep, so the derived integer
availability is never negative; the bound is enforced as a
precondition on loan creation (a grant implies a copy was free), not
repaired afterwards; and the client exposes total and available copy
counts per book and refuses to issue a borrow request when the
available count is at most zero. -/
theorem availability_invariant :
    (∀ (cfg : Engine.Config) (u now : Nat) (s : Engine.TitleState),
        Engine.openCount s ≤ s.totalCopies →
        Engine.openCount (Engine.borrow cfg u now s).2
          ≤ ((Engine.borrow cfg u now s).2).totalCopies) ∧
    (∀ (cfg : Engine.Config) (lid now : Nat) (s : Engine.TitleState),
        (s.loans.map Engine.Loan.id).Nodup →
        Engine.openCount s ≤ s.totalCopies →
        Engine.openCount (Engine.returnLoan cfg lid now s).2
          ≤ ((Engine.returnLoan cfg lid now s).2).totalCopies) ∧
    (∀ (cfg : Engine.Config) (lid now : Nat) (s : Engine.TitleState),
        (s.loans.map Engine.Loan.id).Nodup →
        Engine.openCount s ≤ s.totalCopies →
        Engine.openCount (Engine.renew cfg lid now s).2
          ≤ ((Engine.renew cfg lid now s).2).totalCopies) ∧
    (∀ (lid now : Nat) (s : Engine.TitleState),
        Engine.openCount s ≤ s.totalCopies →
        Engine.openCount (Engine.evaluateOverdue lid now s)
          ≤ (Engine.evaluateOverdue lid now s).totalCopies) ∧
    (∀ s : Engine.TitleState, Engine.openCount s ≤ s.totalCopies →
        0 ≤ Engine.availInt s ∧ (Engine.availableCopies s : Int) = Engine.availInt s) ∧
    (∀ (cfg : Engine.Config) (u now : Nat) (s : Engine.TitleState),
        ((Engine.borrow cfg u now s).1).isGranted = true →
        0 < Engine.availableCopies s) ∧
    (∀ (b : Client.Book) (pending : Bool),
        b.available_copies ≤ 0 → Client.borrowButtonDisabled b pending = true) := by
  refine ⟨?_, ?_, ?_, ?_, ?_, ?_, ?_⟩
  · intro cfg u now s hinv
    unfold Engine.borrow
    dsimp only
    split
    · exact hinv
    · split
      next hcap =>
        have h1 : Engine.openCount s < s.totalCopies := by
          rw [Engine.availableCopies_expireStale] at hcap
          unfold Engine.availableCopies at hcap
          omega
        show List.countP (fun x => x.state.isOpen)
            (_ :: (Engine.expireStale now s).loans) ≤ s.totalCopies
        rw [Engine.openCount_cons_active _ _ rfl]
        rw [show List.countP (fun x => x.state.isOpen)
            (Engine.expireStale now s).loans = Engine.openCount s from rfl]
        omega
      · exact hinv
  · intro cfg lid now s hnd hinv
    unfold Engine.returnLoan
    dsimp only
    cases hf : s.loans.find? (fun x => x.id = lid) with
    | none => exact hinv
    | some l0 =>
      dsimp only
      by_cases ht0 : l0.state.isTerminal
      · rw [if_pos ht0]
        exact hinv
      · rw [if_neg ht0]
        have hopen0 : l0.state.isOpen = true :=
          Engine.isOpen_of_isTerminal_false (by simpa using ht0)
        have hrepl : List.countP (fun x => x.state.isOpen)
            (Engine.replaceLoan s.loans lid
              { l0 with state := Engine.LoanState.returned, returnedAt := some now })
            = Engine.openCount s - 1 := by
          rw [Engine.countP_replaceLoan _ _ _ _ _ hnd hf]
          have hcl :
              ({ l0 with state := Engine.LoanState.returned, returnedAt := some now } : Engine.Loan).state.isOpen = false :=
            rfl
          rw [hopen0, hcl]
          simp [Engine.openCount]
        have hpos : 1 ≤ Engine.openCount s :=
          List.countP_pos_iff.mpr ⟨l0, List.mem_of_find?_eq_some hf, hopen0⟩
        split
        · show List.countP (fun x => x.state.isOpen)
              (Engine.replaceLoan s.loans lid
                { l0 with state := Engine.LoanState.returned, returnedAt := some now })
            ≤ s.totalCopies
          rw [hrepl]
          omega
        · show List.countP (fun x => x.state.isOpen)
              (_ :: Engine.replaceLoan s.loans lid
                { l0 with state := Engine.LoanState.returned, returnedAt := some now })
            ≤ s.totalCopies
          rw [Engine.openCount_cons_active _ _ rfl, hrepl]
          omega
  · intro cfg lid now s hnd hinv
    unfold Engine.renew
    dsimp only
    cases hf : (Engine.expireStale now s).loans.find? (fun x => x.id = lid) with
    | none => exact hinv
    | some l0 =>
      dsimp only
      split
      · exact hinv
      next hact =>
        split
        · exact hinv
        · split
          · exact hinv
          · have hactive : l0.state = Engine.LoanState.active := not_not.mp hact
            have hopen0 : l0.state.isOpen = true := by
              rw [hactive]
              rfl
            have hf2 : s.loans.find? (fun x => x.id = lid) = some l0 := hf
            show List.countP (fun x => x.state.isOpen)
                (Engine.replaceLoan s.loans lid
                  { l0 with dueAt := now + cfg.loanPeriod, renewals := l0.renewals + 1 })
              ≤ s.totalCopies
            rw [Engine.countP_replaceLoan _ _ _ _ _ hnd hf2]
            rw [hopen0]
            have hpos : 1 ≤ Engine.openCount s :=
              List.countP_pos_iff.mpr ⟨l0, List.mem_of_find?_eq_some hf2, hopen0⟩
            simp only [eq_self_iff_true, if_true]
            have hoc : Engine.openCount s
                = List.countP (fun x => x.state.isOpen) s.loans := rfl
            omega
  · intro lid now s hinv
    have heq : Engine.openCount (Engine.evaluateOverdue lid now s)
        = Engine.openCount s := by
      unfold Engine.openCount Engine.evaluateOverdue
      dsimp only
      rw [List.countP_map]
      apply List.countP_congr
      intro l _
      by_cases hc : l.id = lid ∧ l.state = Engine.LoanState.active ∧ l.dueAt < now
      · simp [Function.comp, hc, hc.2.1, Engine.LoanState.isOpen]
      · simp [Function.comp, hc]
    rw [heq]
    exact hinv
  · intro s hinv
    constructor
    · unfold Engine.availInt
      omega
    · unfold Engine.availableCopies Engine.availInt
      omega
  · intro cfg u now s hg
    unfold Engine.borrow at hg
    dsimp only at hg
    by_cases h1 : Engine.pendingList (Engine.expireStale now s) ≠ []
    · rw [if_pos h1] at hg
      simp [Engine.BorrowOutcome.isGranted] at hg
    · rw [if_neg h1] at hg
      by_cases h2 : 0 < Engine.availableCopies (Engine.expireStale now s)
      · rwa [Engine.availableCopies_expireStale] at h2
      · rw [if_neg h2] at hg
        simp [Engine.BorrowOutcome.isGranted] at hg
  · intro b pending h
    unfold Client.borrowButtonDisabled
    simp [h]

/-- Witness for C2 at a concrete input: one open loan of a one-copy
title stays within the bound after a further borrow attempt, the
integer availability is nonnegative, and the client disables the
borrow button on a book with zero available copies. -/
theorem availability_invariant_witness :
    Engine.openCount (Engine.borrow ⟨14, 2, 5, 1, 7⟩ 9 20
        ⟨1, [⟨0, 7, Engine.LoanState.active, 0, 14, none, 0⟩], [], 1, 0⟩).2
      ≤ ((Engine.borrow ⟨14, 2, 5, 1, 7⟩ 9 20
        ⟨1, [⟨0, 7, Engine.LoanState.active, 0, 14, none, 0⟩], [], 1, 0⟩).2).totalCopies ∧
    0 ≤ Engine.availInt ⟨1, [⟨0, 7, Engine.LoanState.active, 0, 14, none, 0⟩], [], 1, 0⟩ ∧
    Client.borrowButtonDisabled ⟨5, 3, 0⟩ false = true :=
  ⟨availability_invariant.1 ⟨14, 2, 5, 1, 7⟩ 9 20
      ⟨1, [⟨0, 7, Engine.LoanState.active, 0, 14, none, 0⟩], [], 1, 0⟩ (by decide),
    (availability_invariant.2.2.2.2.1
      ⟨1, [⟨0, 7, Engine.LoanState.active, 0, 14, none, 0⟩], [], 1, 0⟩ (by decide)).1,
    availability_invariant.2.2.2.2.2.2 ⟨5, 3, 0⟩ false (by decide)⟩

/-- Claim C3: returning an open loan of a title whose Pending queue is
non-empty promotes the head reservation to a new Active loan inside
the same returnLoan operation (the reservation is Fulfilled and the
new loan is issued at now for its requester), and the freed copy is
never observable as available: the availability reads zero both before
the atomic operation and after it, never one. -/
theorem return_promotes_head :
    ∀ (cfg : Engine.Config) (lid now : Nat) (s : Engine.TitleState) (l : Engine.Loan)
      (r : Engine.Reservation) (rest : List Engine.Reservation),
      (s.loans.map Engine.Loan.id).Nodup →
      s.loans.find? (fun x => x.id = lid) = some l →
      l.state.isOpen = true →
      Engine.pendingList (Engine.expireStale now s) = r :: rest →
      Engine.openCount s = s.totalCopies →
      ((Engine.returnLoan cfg lid now s).1 =
          Except.ok { l with state := Engine.LoanState.returned, returnedAt := some now } ∧
        (∃ nl ∈ ((Engine.returnLoan cfg lid now s).2).loans,
            nl.state = Engine.LoanState.active ∧ nl.holderId = r.requesterId ∧
            nl.issuedAt = now ∧ nl.dueAt = now + cfg.loanPeriod) ∧
        (∃ r2 ∈ ((Engine.returnLoan cfg lid now s).2).queue,
            r2.id = r.id ∧ r2.state = Engine.ResState.fulfilled) ∧
        Engine.availableCopies s = 0 ∧
        Engine.availableCopies (Engine.returnLoan cfg lid now s).2 = 0) := by
  intro cfg lid now s l r rest hnd hf hopen hq hfull
  have hterm : l.state.isTerminal = false := Engine.isTerminal_false_of_isOpen hopen
  have hrepl : List.countP (fun x => x.state.isOpen)
      (Engine.replaceLoan s.loans lid
        { l with state := Engine.LoanState.returned, returnedAt := some now })
      = Engine.openCount s - 1 := by
    rw [Engine.countP_replaceLoan _ _ _ _ _ hnd hf]
    have hcl :
        ({ l with state := Engine.LoanState.returned, returnedAt := some now } : Engine.Loan).state.isOpen = false :=
      rfl
    rw [hopen, hcl]
    simp [Engine.openCount]
  have hpos : 1 ≤ Engine.openCount s :=
    List.countP_pos_iff.mpr ⟨l, List.mem_of_find?_eq_some hf, hopen⟩
  have hrmem : r ∈ (Engine.expireStale now s).queue := by
    have : r ∈ Engine.pendingList (Engine.expireStale now s) := by
      rw [hq]
      exact List.mem_cons_self _ _
    exact List.mem_of_mem_filter this
  unfold Engine.returnLoan
  dsimp only
  rw [hf]
  dsimp only
  rw [if_neg (by simp [hterm])]
  rw [show Engine.pendingList (Engine.expireStale now { s with loans := Engine.replaceLoan s.loans lid { l with state := Engine.LoanState.returned, returnedAt := some now } }) = r :: rest from hq]
  dsimp only
  refine ⟨rfl, ?_, ?_, ?_, ?_⟩
  · exact ⟨_, List.mem_cons_self _ _, rfl, rfl, rfl, rfl⟩
  · exact ⟨{ r with state := Engine.ResState.fulfilled },
      List.mem_map.mpr ⟨r, hrmem, by rw [if_pos rfl]⟩, rfl, rfl⟩
  · unfold Engine.availableCopies
    omega
  · unfold Engine.availableCopies Engine.openCount
    dsimp only
    rw [Engine.expireStale_loans]
    dsimp only
    rw [Engine.openCount_cons_active _ _ rfl, hrepl]
    rw [Engine.expireStale_totalCopies]
    dsimp only
    omega

/-- Witness for C3 at a concrete input: a one-copy title with one open
loan and one Pending reservation; the return closes the loan, fulfils
the reservation, creates the new Active loan for its requester, and
availability reads zero before and after. -/
theorem return_promotes_head_witness :
    ((Engine.returnLoan ⟨14, 2, 5, 1, 7⟩ 0 111
        ⟨1, [⟨0, 7, Engine.LoanState.active, 100, 114, none, 0⟩],
          [⟨0, 8, Engine.ResState.pending, 101, 200⟩], 1, 1⟩).1 =
      Except.ok ⟨0, 7, Engine.LoanState.returned, 100, 114, some 111, 0⟩ ∧
    (∃ nl ∈ ((Engine.returnLoan ⟨14, 2, 5, 1, 7⟩ 0 111
        ⟨1, [⟨0, 7, Engine.LoanState.active, 100, 114, none, 0⟩],
          [⟨0, 8, Engine.ResState.pending, 101, 200⟩], 1, 1⟩).2).loans,
        nl.state = Engine.LoanState.active ∧ nl.holderId = 8 ∧
        nl.issuedAt = 111 ∧ nl.dueAt = 111 + 14) ∧
    (∃ r2 ∈ ((Engine.returnLoan ⟨14, 2, 5, 1, 7⟩ 0 111
        ⟨1, [⟨0, 7, Engine.LoanState.active, 100, 114, none, 0⟩],
          [⟨0, 8, Engine.ResState.pending, 101, 200⟩], 1, 1⟩).2).queue,
        r2.id = 0 ∧ r2.state = Engine.ResState.fulfilled) ∧
    Engine.availableCopies ⟨1, [⟨0, 7, Engine.LoanState.active, 100, 114, none, 0⟩],
        [⟨0, 8, Engine.ResState.pending, 101, 200⟩], 1, 1⟩ = 0 ∧
    Engine.availableCopies (Engine.returnLoan ⟨14, 2, 5, 1, 7⟩ 0 111
        ⟨1, [⟨0, 7, Engine.LoanState.active, 100, 114, none, 0⟩],
          [⟨0, 8, Engine.ResState.pending, 101, 200⟩], 1, 1⟩).2 = 0) :=
  return_promotes_head ⟨14, 2, 5, 1, 7⟩ 0 111
    ⟨1, [⟨0, 7, Engine.LoanState.active, 100, 114, none, 0⟩],
      [⟨0, 8, Engine.ResState.pending, 101, 200⟩], 1, 1⟩
    ⟨0, 7, Engine.LoanState.active, 100, 114, none, 0⟩
    ⟨0, 8, Engine.ResState.pending, 101, 200⟩ []
    (by decide) (by decide) rfl (by decide) rfl

namespace Engine

theorem findIdx?_cons_eq {α : Type} (p : α → Bool) (x : α) (xs : List α) :
    (x :: xs).findIdx? p = if p x then some 0 else (xs.findIdx? p).map (· + 1) := by
  rw [List.findIdx?_cons]
  split
  · rfl
  · rw [List.findIdx?_succ]

theorem findIdx?_found {α : Type} (p : α → Bool) :
    ∀ (l : List α) (j : Nat), l.findIdx? p = some j →
      ∃ hj : j < l.length, p (l.get ⟨j, hj⟩) = true := by
  intro l
  induction l with
  | nil =>
    intro j h
    simp [List.findIdx?] at h
  | cons a as ih =>
    intro j h
    rw [findIdx?_cons_eq] at h
    by_cases hpa : p a
    · rw [if_pos hpa] at h
      injection h with h
      subst h
      exact ⟨by simp, hpa⟩
    · rw [if_neg hpa] at h
      cases hfi : as.findIdx? p with
      | none =>
        rw [hfi] at h
        simp at h
      | some j0 =>
        rw [hfi] at h
        simp only [Option.map_some'] at h
        injection h with h
        obtain ⟨hj0, hp0⟩ := ih j0 hfi
        subst h
        exact ⟨by simpa using Nat.succ_lt_succ hj0, by simpa using hp0⟩

theorem findIdx?_key_get {α : Type} (key : α → Nat) :
    ∀ (l : List α), (l.map key).Nodup → ∀ (i : Nat) (hi : i < l.length),
      l.findIdx? (fun x => key x = key (l.get ⟨i, hi⟩)) = some i := by
  intro l
  induction l with
  | nil =>
    intro _ i hi
    simp at hi
  | cons a as ih =>
    intro hnd i hi
    rw [List.map_cons, List.nodup_cons] at hnd
    cases i with
    | zero =>
      rw [findIdx?_cons_eq]
      simp
    | succ j =>
      have hj : j < as.length := by simpa using hi
      have hget : (a :: as).get ⟨j + 1, hi⟩ = as.get ⟨j, hj⟩ := rfl
      rw [findIdx?_cons_eq, hget]
      have hne : ¬ (key a = key (as.get ⟨j, hj⟩)) := by
        intro he
        exact hnd.1 (he ▸ List.mem_map_of_mem key (List.get_mem _ _ _))
      rw [if_neg (by simpa using hne)]
      rw [ih hnd.2 j hj]
      rfl

theorem findIdx?_filter_shift {α : Type} (key : α → Nat) (c t : Nat) (hct : ¬ t = c) :
    ∀ (l : List α), (l.map key).Nodup → ∀ (i j : Nat),
      l.findIdx? (fun x => key x = t) = some i →
      l.findIdx? (fun x => key x = c) = some j →
      (l.filter (fun x => ¬ key x = c)).findIdx? (fun x => key x = t)
        = some (if i < j then i else i - 1) := by
  intro l
  induction l with
  | nil =>
    intro _ i j hi _
    simp [List.findIdx?] at hi
  | cons a as ih =>
    intro hnd i j hi hj
    rw [List.map_cons, List.nodup_cons] at hnd
    by_cases hac : key a = c
    · rw [findIdx?_cons_eq, if_pos (by simpa using hac)] at hj
      injection hj with hj
      subst hj
      have hat : ¬ (key a = t) := by
        rw [hac]
        intro h
        exact hct h.symm
      rw [findIdx?_cons_eq, if_neg (by simpa using hat)] at hi
      cases hfi : as.findIdx? (fun x => key x = t) with
      | none =>
        rw [hfi] at hi
        simp at hi
      | some i0 =>
        rw [hfi] at hi
        simp only [Option.map_some'] at hi
        injection hi with hi
        subst hi
        rw [List.filter_cons_of_neg (by simpa using hac)]
        have hfil : as.filter (fun x => ¬ key x = c) = as := by
          apply List.filter_eq_self.mpr
          intro x hx
          simp only [decide_eq_true_eq]
          intro hxc
          apply hnd.1
          have : key a = key x := by rw [hac, hxc]
          exact this ▸ List.mem_map_of_mem key hx
        rw [hfil, hfi]
        simp
    · rw [findIdx?_cons_eq, if_neg (by simpa using hac)] at hj
      cases hfj : as.findIdx? (fun x => key x = c) with
      | none =>
        rw [hfj] at hj
        simp at hj
      | some j0 =>
        rw [hfj] at hj
        simp only [Option.map_some'] at hj
        injection hj with hj
        subst hj
        by_cases hat : key a = t
        · rw [findIdx?_cons_eq, if_pos (by simpa using hat)] at hi
          injection hi with hi
          subst hi
          rw [List.filter_cons_of_pos (by simpa using hac)]
          rw [findIdx?_cons_eq, if_pos (by simpa using hat)]
          simp
        · rw [findIdx?_cons_eq, if_neg (by simpa using hat)] at hi
          cases hfi : as.findIdx? (fun x => key x = t) with
          | none =>
            rw [hfi] at hi
            simp at hi
          | some i0 =>
            rw [hfi] at hi
            simp only [Option.map_some'] at hi
            injection hi with hi
            subst hi
            have hrec := ih hnd.2 i0 j0 hfi hfj
            rw [List.filter_cons_of_pos (by simpa using hac)]
            rw [findIdx?_cons_eq, if_neg (by simpa using hat)]
            rw [hrec]
            simp only [Option.map_some']
            have hne : ¬ i0 = j0 := by
              intro he
              obtain ⟨hlt, hp⟩ := findIdx?_found _ as i0 hfi
              obtain ⟨hlt2, hp2⟩ := findIdx?_found _ as j0 hfj
              subst he
              simp only [decide_eq_true_eq] at hp hp2
              exact hct (by rw [← hp, hp2])
            by_cases hlt : i0 < j0
            · rw [if_pos hlt, if_pos (by omega)]
            · rw [if_neg hlt, if_neg (by omega)]
              congr 1
              omega

theorem pendingList_cancel (c : Nat) (s : TitleState) :
    pendingList (cancelReservation c s)
      = (pendingList s).filter (fun r => ¬ r.id = c) := by
  unfold pendingList cancelReservation
  dsimp only
  induction s.queue with
  | nil => rfl
  | cons a q ih =>
    rw [List.map_cons]
    by_cases hp : a.state = ResState.pending
    · by_cases hid : a.id = c
      · rw [if_pos ⟨hid, hp⟩]
        rw [List.filter_cons_of_neg (by simp), List.filter_cons_of_pos (by simpa using hp),
          List.filter_cons_of_neg (by simpa using hid)]
        exact ih
      · rw [if_neg (by simp [hid])]
        rw [List.filter_cons_of_pos (by simpa using hp),
          List.filter_cons_of_pos (by simpa using hp),
          List.filter_cons_of_pos (by simpa using hid)]
        rw [ih]
    · rw [if_neg (by simp [hp])]
      rw [List.filter_cons_of_neg (by simpa using hp),
        List.filter_cons_of_neg (by simpa using hp)]
      exact ih

theorem pendingList_expireStale_filter (now : Nat) (s : TitleState) :
    pendingList (expireStale now s)
      = (pendingList s).filter (fun r => ¬ r.expiresAt < now) := by
  unfold pendingList expireStale
  dsimp only
  induction s.queue with
  | nil => rfl
  | cons a q ih =>
    rw [List.map_cons]
    by_cases hp : a.state = ResState.pending
    · by_cases hst : a.expiresAt < now
      · rw [if_pos ⟨hp, hst⟩]
        rw [List.filter_cons_of_neg (by simp), List.filter_cons_of_pos (by simpa using hp),
          List.filter_cons_of_neg (by simpa using hst)]
        exact ih
      · rw [if_neg (by simp [hst])]
        rw [List.filter_cons_of_pos (by simpa using hp),
          List.filter_cons_of_pos (by simpa using hp),
          List.filter_cons_of_pos (by simpa using hst)]
        rw [ih]
    · rw [if_neg (by simp [hp])]
      rw [List.filter_cons_of_neg (by simpa using hp),
        List.filter_cons_of_neg (by simpa using hp)]
      exact ih

theorem pendingList_map_id_nodup (s : TitleState)
    (hnd : (s.queue.map Reservation.id).Nodup) :
    ((pendingList s).map Reservation.id).Nodup :=
  hnd.sublist (List.Sublist.map Reservation.id (List.filter_sublist _))

end Engine

/-- Claim C7: queue positions are recomputed from the Pending set, so
within a title the Pending reservations always carry the dense
one-based positions 1..m in creation order; cancelling a Pending
reservation removes exactly its entry from the Pending set, keeping
order, so every later Pending reservation drops by exactly one
position while earlier ones keep theirs; expiry compacts the same
way; and cancelling r2 out of the pending queue r1@1, r2@2, r3@3
leaves r1@1 and r3@2 with no gap. -/
theorem queue_positions_dense_compaction :
    (∀ (s : Engine.TitleState), (s.queue.map Engine.Reservation.id).Nodup →
        ∀ (i : Nat) (hi : i < (Engine.pendingList s).length),
          Engine.queuePosition s ((Engine.pendingList s).get ⟨i, hi⟩).id = some (i + 1)) ∧
    (∀ (s : Engine.TitleState) (c : Nat) (r : Engine.Reservation) (p q : Nat),
        (s.queue.map Engine.Reservation.id).Nodup →
        ¬ r.id = c →
        Engine.queuePosition s r.id = some p →
        Engine.queuePosition s c = some q →
        Engine.queuePosition (Engine.cancelReservation c s) r.id
          = some (if p < q then p else p - 1)) ∧
    (∀ (c : Nat) (s : Engine.TitleState),
        Engine.pendingList (Engine.cancelReservation c s)
          = (Engine.pendingList s).filter (fun x => ¬ x.id = c)) ∧
    (∀ (now : Nat) (s : Engine.TitleState),
        Engine.pendingList (Engine.expireStale now s)
          = (Engine.pendingList s).filter (fun x => ¬ x.expiresAt < now)) ∧
    (Engine.queuePosition
        ⟨1, [], [⟨1, 11, Engine.ResState.pending, 1, 1000⟩,
          ⟨2, 12, Engine.ResState.pending, 2, 1000⟩,
          ⟨3, 13, Engine.ResState.pending, 3, 1000⟩], 0, 4⟩ 1 = some 1 ∧
     Engine.queuePosition
        ⟨1, [], [⟨1, 11, Engine.ResState.pending, 1, 1000⟩,
          ⟨2, 12, Engine.ResState.pending, 2, 1000⟩,
          ⟨3, 13, Engine.ResState.pending, 3, 1000⟩], 0, 4⟩ 2 = some 2 ∧
     Engine.queuePosition
        ⟨1, [], [⟨1, 11, Engine.ResState.pending, 1, 1000⟩,
          ⟨2, 12, Engine.ResState.pending, 2, 1000⟩,
          ⟨3, 13, Engine.ResState.pending, 3, 1000⟩], 0, 4⟩ 3 = some 3 ∧
     Engine.queuePosition (Engine.cancelReservation 2
        ⟨1, [], [⟨1, 11, Engine.ResState.pending, 1, 1000⟩,
          ⟨2, 12, Engine.ResState.pending, 2, 1000⟩,
          ⟨3, 13, Engine.ResState.pending, 3, 1000⟩], 0, 4⟩) 1 = some 1 ∧
     Engine.queuePosition (Engine.cancelReservation 2
        ⟨1, [], [⟨1, 11, Engine.ResState.pending, 1, 1000⟩,
          ⟨2, 12, Engine.ResState.pending, 2, 1000⟩,
          ⟨3, 13, Engine.ResState.pending, 3, 1000⟩], 0, 4⟩) 2 = none ∧
     Engine.queuePosition (Engine.cancelReservation 2
        ⟨1, [], [⟨1, 11, Engine.ResState.pending, 1, 1000⟩,
          ⟨2, 12, Engine.ResState.pending, 2, 1000⟩,
          ⟨3, 13, Engine.ResState.pending, 3, 1000⟩], 0, 4⟩) 3 = some 2) := by
  refine ⟨?_, ?_, Engine.pendingList_cancel, Engine.pendingList_expireStale_filter, by decide⟩
  · intro s hnd i hi
    unfold Engine.queuePosition
    rw [Engine.findIdx?_key_get Engine.Reservation.id (Engine.pendingList s)
      (Engine.pendingList_map_id_nodup s hnd) i hi]
  · intro s c r p q hnd hrc hp hq
    unfold Engine.queuePosition at hp hq ⊢
    cases hfp : (Engine.pendingList s).findIdx? (fun x => x.id = r.id) with
    | none =>
      rw [hfp] at hp
      simp at hp
    | some i =>
      rw [hfp] at hp
      cases hfq : (Engine.pendingList s).findIdx? (fun x => x.id = c) with
      | none =>
        rw [hfq] at hq
        simp at hq
      | some j =>
        rw [hfq] at hq
        simp only [] at hp hq
        injection hp with hp
        injection hq with hq
        subst hp
        subst hq
        rw [Engine.pendingList_cancel]
        rw [Engine.findIdx?_filter_shift Engine.Reservation.id c r.id hrc
          (Engine.pendingList s) (Engine.pendingList_map_id_nodup s hnd) i j hfp hfq]
        have hne : ¬ i = j := by
          intro he
          obtain ⟨hl1, hp1⟩ := Engine.findIdx?_found _ _ i hfp
          obtain ⟨hl2, hp2⟩ := Engine.findIdx?_found _ _ j hfq
          subst he
          simp only [decide_eq_true_eq] at hp1 hp2
          exact hrc (by rw [← hp1, hp2])
        by_cases hlt : i < j
        · rw [if_pos (by omega : i + 1 < j + 1)]
          simp only []
          rw [if_pos hlt]
        · rw [if_neg (by omega : ¬ i + 1 < j + 1)]
          simp only []
          rw [if_neg hlt]
          congr 2
          omega

/-- Witness for C7 at a concrete input: cancelling reservation 2 out
of the pending queue with identifiers 1, 2, 3 moves reservation 3 from
position 3 to position 2. -/
theorem queue_positions_dense_compaction_witness :
    Engine.queuePosition (Engine.cancelReservation 2
        ⟨1, [], [⟨1, 11, Engine.ResState.pending, 1, 1000⟩,
          ⟨2, 12, Engine.ResState.pending, 2, 1000⟩,
          ⟨3, 13, Engine.ResState.pending, 3, 1000⟩], 0, 4⟩)
        (⟨3, 13, Engine.ResState.pending, 3, 1000⟩ : Engine.Reservation).id
      = some (if 3 < 2 then 3 else 3 - 1) :=
  queue_positions_dense_compaction.2.1
    ⟨1, [], [⟨1, 11, Engine.ResState.pending, 1, 1000⟩,
      ⟨2, 12, Engine.ResState.pending, 2, 1000⟩,
      ⟨3, 13, Engine.ResState.pending, 3, 1000⟩], 0, 4⟩ 2
    ⟨3, 13, Engine.ResState.pending, 3, 1000⟩ 3 2
    (by decide) (by decide) (by decide) (by decide)
